import Mathlib

/-!
# Verification of the llm-bias-detector aggregation pipeline

A shallow embedding of the core functions of the repository:

* `calculate_options_shares` (src/analysis_tools.py, lines 7-15): counts label
  occurrences into an insertion-ordered dictionary (modelled as an association
  list, matching Python dict semantics whose keys are unique and ordered) and
  divides each count by the number of mapping entries.  Python's float division
  is modelled with exact rationals; a `ZeroDivisionError` is modelled by the
  `Except.error` branch, raised per dictionary item exactly where Python would
  evaluate `count / total_responses`.
* `identify_options` (src/llm_utils.py, lines 52-142): the structured
  extraction call is an external capability, passed as a function returning
  either a parsed record list or the message of the raised exception;
  the body models the `try` block (per-record `responses[response_index]`
  lookup with Python list-index semantics, where an `IndexError` also lands in
  the `except` branch) and the uniform error fallback.
* `run_query` (src/llm_utils.py, lines 6-49): each loop iteration's
  `_make_completion_call` (retries included) is an external capability giving
  the content string or the message of the exception that exhausted retries.
* `get_model_filename` (src/main.py, lines 15-19): character-level model of
  the two single-character `str.replace` calls and the f-string.
* `get_responses` / `process_options` (src/main.py, lines 21-104): the data
  directory is modelled as a store from (unique_id, filename) to JSON
  artifacts; a missing file is `FileNotFoundError`.
-/

/-! ## Share aggregator: src/analysis_tools.py -/

/-- Number of occurrences of `e` in a single label list. -/
def countOcc (e : String) : List String → Nat
  | [] => 0
  | x :: rest => (if x = e then 1 else 0) + countOcc e rest

/-- Total occurrences of label `e` across all entries of a mapping
(the quantity `option_counts[e]` accumulates in the source). -/
def occTotal (e : String) : List (String × List String) → Nat
  | [] => 0
  | p :: rest => countOcc e p.2 + occTotal e rest

/-- Number of mapping entries whose label list contains `e` — the quantity the
specification's share formula is phrased in terms of. -/
def entryCount (e : String) : List (String × List String) → Nat
  | [] => 0
  | p :: rest => (if e ∈ p.2 then 1 else 0) + entryCount e rest

/-- `e` occurs in at least one entry of the mapping. -/
def occursIn (e : String) (m : List (String × List String)) : Prop :=
  ∃ p ∈ m, e ∈ p.2

instance (e : String) (m : List (String × List String)) :
    Decidable (occursIn e m) := by
  unfold occursIn; infer_instance

/-- Python dict lookup on an association list (keys are unique in every list
this development builds, so first-match lookup agrees with dict access). -/
def dictLookup {β : Type} (e : String) : List (String × β) → Option β
  | [] => none
  | (k, v) :: rest => if k = e then some v else dictLookup e rest

/-- `option_counts[entity] += 1` on the insertion-ordered dict: bump the key
in place if present, append `(e, 1)` otherwise (defaultdict behaviour). -/
def incrCount (counts : List (String × Nat)) (e : String) : List (String × Nat) :=
  match counts with
  | [] => [(e, 1)]
  | (k, v) :: rest => if k = e then (k, v + 1) :: rest else (k, v) :: incrCount rest e

/-- The `option_counts` defaultdict after the two nested `for` loops of
`calculate_options_shares`. -/
def optionCounts (mappings : List (String × List String)) : List (String × Nat) :=
  mappings.foldl (fun acc p => p.2.foldl incrCount acc) []

/-- The dict comprehension `{option: count / total_responses ...}`: items are
produced in dict order and Python would raise `ZeroDivisionError` at the first
item if `total = 0`. -/
def sharesLoop (total : Nat) : List (String × Nat) → Except String (List (String × ℚ))
  | [] => Except.ok []
  | (o, c) :: rest =>
    if total = 0 then Except.error "ZeroDivisionError: division by zero"
    else
      match sharesLoop total rest with
      | Except.error e => Except.error e
      | Except.ok tail => Except.ok ((o, (c : ℚ) / (total : ℚ)) :: tail)

/-- src/analysis_tools.py, `calculate_options_shares`. -/
def calculate_options_shares (mappings : List (String × List String)) :
    Except String (List (String × ℚ)) :=
  let option_counts := optionCounts mappings
  let total_responses := mappings.length
  sharesLoop total_responses option_counts

/-- The association list `calculate_options_shares` returns on its success
path: each accumulated count divided by the number of entries. -/
def sharesOf (m : List (String × List String)) : List (String × ℚ) :=
  (optionCounts m).map fun oc => (oc.1, (oc.2 : ℚ) / (m.length : ℚ))

/-! ### Lemmas about the counting dictionary -/

theorem dictLookup_incrCount (e x : String) (counts : List (String × Nat)) :
    dictLookup e (incrCount counts x) =
      if x = e then some ((dictLookup e counts).getD 0 + 1) else dictLookup e counts := by
  induction counts with
  | nil =>
    by_cases hxe : x = e <;> simp [incrCount, dictLookup, hxe]
  | cons hd tl ih =>
    obtain ⟨k, v⟩ := hd
    by_cases hkx : k = x
    · subst hkx
      by_cases hke : k = e <;> simp [incrCount, dictLookup, hke]
    · by_cases hke : k = e
      · have hxe : x ≠ e := fun h => hkx (hke.trans h.symm)
        have hex : e ≠ x := Ne.symm hxe
        simp [incrCount, dictLookup, hkx, hke, hxe, hex]
      · simp [incrCount, dictLookup, hkx, hke, ih]

theorem getD_foldl_incrCount (e : String) (l : List String) (acc : List (String × Nat)) :
    (dictLookup e (l.foldl incrCount acc)).getD 0 =
      (dictLookup e acc).getD 0 + countOcc e l := by
  induction l generalizing acc with
  | nil => simp [countOcc]
  | cons x rest ih =>
    rw [List.foldl_cons, ih, dictLookup_incrCount]
    by_cases hxe : x = e <;> simp [hxe, countOcc] <;> omega

theorem dictLookup_foldl_incrCount_eq_none (e : String) (l : List String)
    (acc : List (String × Nat)) :
    dictLookup e (l.foldl incrCount acc) = none ↔
      dictLookup e acc = none ∧ countOcc e l = 0 := by
  induction l generalizing acc with
  | nil => simp [countOcc]
  | cons x rest ih =>
    rw [List.foldl_cons, ih, dictLookup_incrCount]
    by_cases hxe : x = e <;> simp [hxe, countOcc] <;> omega

theorem getD_optionCounts_aux (e : String) (m : List (String × List String))
    (acc : List (String × Nat)) :
    (dictLookup e (m.foldl (fun a p => p.2.foldl incrCount a) acc)).getD 0 =
      (dictLookup e acc).getD 0 + occTotal e m := by
  induction m generalizing acc with
  | nil => simp [occTotal]
  | cons p rest ih =>
    rw [List.foldl_cons, ih, getD_foldl_incrCount, occTotal]
    omega

theorem getD_optionCounts (e : String) (m : List (String × List String)) :
    (dictLookup e (optionCounts m)).getD 0 = occTotal e m := by
  simpa [dictLookup] using getD_optionCounts_aux e m []

theorem optionCounts_eq_none_aux (e : String) (m : List (String × List String))
    (acc : List (String × Nat)) :
    dictLookup e (m.foldl (fun a p => p.2.foldl incrCount a) acc) = none ↔
      dictLookup e acc = none ∧ occTotal e m = 0 := by
  induction m generalizing acc with
  | nil => simp [occTotal]
  | cons p rest ih =>
    rw [List.foldl_cons, ih, dictLookup_foldl_incrCount_eq_none, occTotal]
    constructor
    · rintro ⟨⟨h1, h2⟩, h3⟩; exact ⟨h1, by omega⟩
    · rintro ⟨h1, h2⟩; exact ⟨⟨h1, by omega⟩, by omega⟩

theorem dictLookup_optionCounts_eq_none (e : String) (m : List (String × List String)) :
    dictLookup e (optionCounts m) = none ↔ occTotal e m = 0 := by
  simpa [dictLookup] using optionCounts_eq_none_aux e m []

theorem dictLookup_optionCounts_of_occ (e : String) (m : List (String × List String))
    (h : occTotal e m ≠ 0) :
    dictLookup e (optionCounts m) = some (occTotal e m) := by
  rcases hl : dictLookup e (optionCounts m) with _ | v
  · exact absurd ((dictLookup_optionCounts_eq_none e m).1 hl) h
  · have := getD_optionCounts e m
    rw [hl] at this
    simp at this
    rw [this]

/-- Keys of the counting dict are pairwise distinct (Python dict invariant). -/
def keysNodup {β : Type} (counts : List (String × β)) : Prop :=
  (counts.map Prod.fst).Nodup

theorem mem_keys_incrCount (a x : String) (counts : List (String × Nat)) :
    a ∈ (incrCount counts x).map Prod.fst ↔ a ∈ counts.map Prod.fst ∨ a = x := by
  induction counts with
  | nil => simp [incrCount]
  | cons hd tl ih =>
    obtain ⟨k, v⟩ := hd
    by_cases hkx : k = x
    · subst hkx
      simp [incrCount]
      tauto
    · simp [incrCount, hkx, ih]
      tauto

theorem keysNodup_incrCount (x : String) (counts : List (String × Nat))
    (h : keysNodup counts) : keysNodup (incrCount counts x) := by
  induction counts with
  | nil => simp [incrCount, keysNodup]
  | cons hd tl ih =>
    obtain ⟨k, v⟩ := hd
    unfold keysNodup at h ⊢
    simp only [List.map_cons, List.nodup_cons] at h
    by_cases hkx : k = x
    · subst hkx
      simp [incrCount, List.nodup_cons, h.1, h.2]
    · have htl := ih h.2
      simp only [incrCount, hkx, if_false, List.map_cons, List.nodup_cons]
      refine ⟨?_, htl⟩
      rw [mem_keys_incrCount]
      rintro (hmem | rfl)
      · exact h.1 hmem
      · exact hkx rfl

theorem keysNodup_foldl_incrCount (l : List String) (acc : List (String × Nat))
    (h : keysNodup acc) : keysNodup (l.foldl incrCount acc) := by
  induction l generalizing acc with
  | nil => exact h
  | cons x rest ih => exact ih _ (keysNodup_incrCount x acc h)

theorem keysNodup_optionCounts (m : List (String × List String)) :
    keysNodup (optionCounts m) := by
  unfold optionCounts
  suffices h : ∀ acc : List (String × Nat), keysNodup acc →
      keysNodup (m.foldl (fun a p => p.2.foldl incrCount a) acc) by
    exact h [] (by simp [keysNodup])
  induction m with
  | nil => intro acc hacc; exact hacc
  | cons p rest ih =>
    intro acc hacc
    exact ih _ (keysNodup_foldl_incrCount p.2 acc hacc)

theorem dictLookup_of_mem {β : Type} (k : String) (v : β)
    (counts : List (String × β)) (hnd : keysNodup counts)
    (hmem : (k, v) ∈ counts) : dictLookup k counts = some v := by
  induction counts with
  | nil => simp at hmem
  | cons hd tl ih =>
    obtain ⟨k0, v0⟩ := hd
    unfold keysNodup at hnd
    simp only [List.map_cons, List.nodup_cons] at hnd
    rcases List.mem_cons.1 hmem with heq | htl
    · obtain ⟨h1, h2⟩ := Prod.mk.injEq .. ▸ heq
      simp_all [dictLookup]
    · by_cases hk : k0 = k
      · subst hk
        exact absurd (List.mem_map_of_mem Prod.fst htl) hnd.1
      · simp only [dictLookup, hk, if_false]
        exact ih hnd.2 htl

theorem sharesLoop_ok (total : Nat) (counts : List (String × Nat)) (h : total ≠ 0) :
    sharesLoop total counts =
      Except.ok (counts.map fun oc => (oc.1, (oc.2 : ℚ) / (total : ℚ))) := by
  induction counts with
  | nil => simp [sharesLoop]
  | cons hd tl ih =>
    obtain ⟨o, c⟩ := hd
    simp [sharesLoop, h, ih]

theorem countOcc_eq_zero_of_not_mem (e : String) (l : List String) (h : e ∉ l) :
    countOcc e l = 0 := by
  induction l with
  | nil => simp [countOcc]
  | cons x rest ih =>
    simp only [List.mem_cons, not_or] at h
    have hxe : x ≠ e := fun hx => h.1 hx.symm
    simp [countOcc, hxe, ih h.2]

theorem countOcc_of_nodup (e : String) (l : List String) (hnd : l.Nodup) :
    countOcc e l = if e ∈ l then 1 else 0 := by
  induction l with
  | nil => simp [countOcc]
  | cons x rest ih =>
    rcases List.nodup_cons.1 hnd with ⟨hx, hrest⟩
    by_cases hxe : x = e
    · subst hxe
      simp [countOcc, countOcc_eq_zero_of_not_mem x rest hx]
    · have hex : ¬e = x := fun hh => hxe hh.symm
      simp [countOcc, hxe, ih hrest, List.mem_cons, hex]

theorem pos_countOcc_of_mem (e : String) (l : List String) (h : e ∈ l) :
    countOcc e l ≠ 0 := by
  induction l with
  | nil => simp at h
  | cons x rest ih =>
    rcases List.mem_cons.1 h with rfl | hmem
    · simp [countOcc]
    · have := ih hmem
      simp [countOcc]
      intro
      omega

theorem occTotal_eq_entryCount (e : String) (m : List (String × List String))
    (hnd : ∀ p ∈ m, p.2.Nodup) : occTotal e m = entryCount e m := by
  induction m with
  | nil => rfl
  | cons p rest ih =>
    have hp := hnd p (List.mem_cons_self p rest)
    have hrest := ih fun q hq => hnd q (List.mem_cons_of_mem p hq)
    simp [occTotal, entryCount, countOcc_of_nodup e p.2 hp, hrest]

theorem occTotal_le_length (e : String) (m : List (String × List String))
    (hnd : ∀ p ∈ m, p.2.Nodup) : occTotal e m ≤ m.length := by
  induction m with
  | nil => simp [occTotal]
  | cons p rest ih =>
    have hp := hnd p (List.mem_cons_self p rest)
    have hrest := ih fun q hq => hnd q (List.mem_cons_of_mem p hq)
    have : countOcc e p.2 ≤ 1 := by
      rw [countOcc_of_nodup e p.2 hp]
      split <;> omega
    simp only [occTotal, List.length_cons]
    omega

theorem occursIn_iff_occTotal_ne_zero (e : String) (m : List (String × List String)) :
    occursIn e m ↔ occTotal e m ≠ 0 := by
  induction m with
  | nil => simp [occursIn, occTotal]
  | cons p rest ih =>
    unfold occursIn at ih ⊢
    simp only [List.mem_cons, occTotal]
    constructor
    · rintro ⟨q, hq | hq, hmem⟩
      · subst hq
        have := pos_countOcc_of_mem e q.2 hmem
        omega
      · have := ih.1 ⟨q, hq, hmem⟩
        omega
    · intro h
      by_cases hc : countOcc e p.2 = 0
      · have : occTotal e rest ≠ 0 := by omega
        obtain ⟨q, hq, hmem⟩ := ih.2 this
        exact ⟨q, Or.inr hq, hmem⟩
      · refine ⟨p, Or.inl rfl, ?_⟩
        by_contra hnm
        exact hc (countOcc_eq_zero_of_not_mem e p.2 hnm)

theorem dictLookup_map_div {β γ : Type} (e : String) (counts : List (String × β))
    (f : β → γ) :
    dictLookup e (counts.map fun oc => (oc.1, f oc.2)) = (dictLookup e counts).map f := by
  induction counts with
  | nil => simp [dictLookup]
  | cons hd tl ih =>
    obtain ⟨k, v⟩ := hd
    by_cases hk : k = e <;> simp [dictLookup, hk, ih]

/-! ## Claims about the share aggregator -/

/-- C9: `calculate_options_shares` on the empty mapping returns the empty
dict and never reaches the division (no `ZeroDivisionError` branch). -/
theorem C9_empty_mapping : calculate_options_shares [] = Except.ok [] := rfl

/-- C1 counterexample: the claim's share formula counts entries containing a
label, but the code counts occurrences; an entry repeating a label makes them
differ.  On `[("r", ["A", "A"])]` the code assigns "A" the share 2, while the
claim's formula (entries containing "A") / N gives 1. -/
theorem C1_counterexample :
    calculate_options_shares [("r", ["A", "A"])] =
      Except.ok [("A", (2 : ℚ) / (1 : ℚ))] ∧
    dictLookup "A" (sharesOf [("r", ["A", "A"])]) = some (2 : ℚ) ∧
    (entryCount "A" [("r", ["A", "A"])] : ℚ) /
        (([("r", ["A", "A"])] : List (String × List String)).length : ℚ) = 1 ∧
    (2 : ℚ) ≠ 1 := by
  refine ⟨rfl, ?_, ?_, by norm_num⟩
  · norm_num [sharesOf, optionCounts, incrCount, dictLookup]
  · norm_num [entryCount]

/-- C1 (amended): with entries whose label lists are duplicate-free (the
spec's "set-like sequence"), every occurring label's share is exactly
(entries containing it) / N and absent labels are missing from the dict. -/
theorem C1_amended_shares (m : List (String × List String)) (hN : 1 ≤ m.length)
    (hnd : ∀ p ∈ m, p.2.Nodup) (e : String) :
    calculate_options_shares m = Except.ok (sharesOf m) ∧
    (occursIn e m →
      dictLookup e (sharesOf m) = some ((entryCount e m : ℚ) / (m.length : ℚ))) ∧
    (¬occursIn e m → dictLookup e (sharesOf m) = none) := by
  have hlen : m.length ≠ 0 := by omega
  refine ⟨?_, ?_, ?_⟩
  · unfold calculate_options_shares sharesOf
    exact sharesLoop_ok m.length (optionCounts m) hlen
  · intro hocc
    have hne := (occursIn_iff_occTotal_ne_zero e m).1 hocc
    unfold sharesOf
    rw [dictLookup_map_div e (optionCounts m) (fun c => (c : ℚ) / (m.length : ℚ)),
      dictLookup_optionCounts_of_occ e m hne, occTotal_eq_entryCount e m hnd]
    rfl
  · intro hocc
    have hz : occTotal e m = 0 := by
      by_contra h
      exact hocc ((occursIn_iff_occTotal_ne_zero e m).2 h)
    unfold sharesOf
    rw [dictLookup_map_div e (optionCounts m) (fun c => (c : ℚ) / (m.length : ℚ)),
      (dictLookup_optionCounts_eq_none e m).2 hz]
    rfl

/-- Witness for C1 (amended) at the spec's own example mapping. -/
theorem C1_amended_shares_witness :
    1 ≤ ([("r1", ["A", "B"]), ("r2", ["A"])] : List (String × List String)).length ∧
    dictLookup "A" (sharesOf [("r1", ["A", "B"]), ("r2", ["A"])]) =
      some ((entryCount "A" [("r1", ["A", "B"]), ("r2", ["A"])] : ℚ) /
        (([("r1", ["A", "B"]), ("r2", ["A"])] : List (String × List String)).length : ℚ)) :=
  ⟨by decide,
    (C1_amended_shares [("r1", ["A", "B"]), ("r2", ["A"])] (by decide) (by decide) "A").2.1
      (by decide)⟩

/-- C4 counterexample: a duplicated label in one entry drives its share to 2,
outside [0, 1]. -/
theorem C4_counterexample :
    calculate_options_shares [("r", ["A", "A"])] =
      Except.ok (sharesOf [("r", ["A", "A"])]) ∧
    ("A", (2 : ℚ)) ∈ sharesOf [("r", ["A", "A"])] ∧ ¬((2 : ℚ) ≤ 1) := by
  refine ⟨rfl, ?_, by norm_num⟩
  norm_num [sharesOf, optionCounts, incrCount]

/-- C4 (amended): when no entry's label list repeats a label, every value of
the returned dict lies in [0, 1]. -/
theorem C4_amended_bounds (m : List (String × List String))
    (hnd : ∀ p ∈ m, p.2.Nodup) (shares : List (String × ℚ))
    (hok : calculate_options_shares m = Except.ok shares)
    (s : String × ℚ) (hs : s ∈ shares) : 0 ≤ s.2 ∧ s.2 ≤ 1 := by
  by_cases hm : m.length = 0
  · have hm0 : m = [] := List.length_eq_zero.1 hm
    subst hm0
    have hsh : shares = [] := by
      have h0 : (Except.ok [] : Except String (List (String × ℚ))) = Except.ok shares := hok
      exact (Except.ok.inj h0).symm
    rw [hsh] at hs
    simp at hs
  · have hows := sharesLoop_ok m.length (optionCounts m) hm
    unfold calculate_options_shares at hok
    rw [hows] at hok
    have hsh : shares = (optionCounts m).map fun oc => (oc.1, (oc.2 : ℚ) / (m.length : ℚ)) :=
      (Except.ok.inj hok).symm
    rw [hsh] at hs
    obtain ⟨oc, hoc, hseq⟩ := List.mem_map.1 hs
    have hlk := dictLookup_of_mem oc.1 oc.2 (optionCounts m) (keysNodup_optionCounts m)
      (by simpa using hoc)
    have hval : oc.2 = occTotal oc.1 m := by
      have hg := getD_optionCounts oc.1 m
      rw [hlk] at hg
      simpa using hg
    have hle : oc.2 ≤ m.length := hval ▸ occTotal_le_length oc.1 m hnd
    have hs2 : s.2 = (oc.2 : ℚ) / (m.length : ℚ) := by rw [← hseq]
    constructor
    · rw [hs2]
      exact div_nonneg (Nat.cast_nonneg _) (Nat.cast_nonneg _)
    · rw [hs2]
      apply div_le_one_of_le₀
      · exact_mod_cast hle
      · exact Nat.cast_nonneg _

/-- Witness for C4 (amended) at the share value 1/2 of label "B". -/
theorem C4_amended_bounds_witness :
    (0 : ℚ) ≤ (1 : ℚ) / (2 : ℚ) ∧ (1 : ℚ) / (2 : ℚ) ≤ 1 :=
  C4_amended_bounds [("r1", ["A", "B"]), ("r2", ["A"])] (by decide)
    [("A", (2 : ℚ) / (2 : ℚ)), ("B", (1 : ℚ) / (2 : ℚ))] rfl
    ("B", (1 : ℚ) / (2 : ℚ)) (by simp)

/-! ## Option extractor: src/llm_utils.py, `identify_options` -/

/-- One record of the `extract_entities` function-call payload
(`{response_index, thoughts, normalized_entities}`); `response_index` is a
Python `int`, so it may be negative. -/
structure ExtractRecord where
  response_index : Int
  thoughts : String
  normalized_entities : List String
deriving DecidableEq

/-- Python list indexing `l[i]`: negative indices count from the end and an
out-of-range index raises `IndexError` (modelled as `none`). -/
def pyGet (l : List String) (i : Int) : Option String :=
  if 0 ≤ i then l.get? i.toNat
  else if (l.length : Int) + i < 0 then none
  else l.get? ((l.length : Int) + i).toNat

/-- The result-building loop of `identify_options`: for each emitted record,
in emission order, append `(responses[response_index], normalized_entities)`;
an out-of-range index aborts the whole loop (`IndexError`). -/
def buildMappings (responses : List String) :
    List ExtractRecord → Option (List (String × List String))
  | [] => some []
  | m :: rest =>
    match pyGet responses m.response_index with
    | none => none
    | some text =>
      match buildMappings responses rest with
      | none => none
      | some tail => some ((text, m.normalized_entities) :: tail)

/-- src/llm_utils.py, `identify_options`.  The structured-extraction call
(context building, `completion`, JSON parsing) is the external capability
`extract`; it yields the parsed `mappings` records or the message of the
exception it raised.  The `except` branch pairs every response with a
single-element error-marker list; an `IndexError` inside the `try` lands in
the same branch with Python's message for it. -/
def identify_options (responses : List String) (question : Option String)
    (extract : List String → Option String → Except String (List ExtractRecord)) :
    List (String × List String) :=
  match extract responses question with
  | Except.error e => responses.map fun response => (response, ["Error: " ++ e])
  | Except.ok mappings =>
    match buildMappings responses mappings with
    | some result => result
    | none => responses.map fun response => (response, ["Error: list index out of range"])

/-- C5: when the structured extraction call raises, every response is paired,
uniformly and in order, with the single-element error-marker list, and
`identify_options` still returns a value (the exception is absorbed). -/
theorem C5_extraction_failure_uniform (responses : List String) (question : Option String)
    (extract : List String → Option String → Except String (List ExtractRecord))
    (e : String) (h : extract responses question = Except.error e) :
    identify_options responses question extract =
      responses.map (fun response => (response, ["Error: " ++ e])) ∧
    (identify_options responses question extract).length = responses.length ∧
    ∀ p ∈ identify_options responses question extract, p.2 = ["Error: " ++ e] := by
  have hio : identify_options responses question extract =
      responses.map fun response => (response, ["Error: " ++ e]) := by
    unfold identify_options
    rw [h]
  refine ⟨hio, ?_, ?_⟩
  · rw [hio, List.length_map]
  · intro p hp
    rw [hio] at hp
    obtain ⟨r, _, hpr⟩ := List.mem_map.1 hp
    rw [← hpr]

/-- Witness for C5 on a two-response batch and a concrete raised message. -/
theorem C5_extraction_failure_uniform_witness :
    identify_options ["a", "b"] (some "q") (fun _ _ => Except.error "boom") =
      ["a", "b"].map (fun response => (response, ["Error: " ++ "boom"])) :=
  (C5_extraction_failure_uniform ["a", "b"] (some "q")
    (fun _ _ => Except.error "boom") "boom" rfl).1

/-- C2 (the code at the claim's scenario): when the extraction model emits its
records for responses ["a", "b"] in swapped order, `identify_options` keeps
the emission order, so the returned text fields are ["b", "a"], not the
original order ["a", "b"] the claim requires. -/
theorem C2_emission_order_kept :
    identify_options ["a", "b"] none
        (fun _ _ => Except.ok [⟨1, "t1", ["X"]⟩, ⟨0, "t0", ["Y"]⟩]) =
      [("b", ["X"]), ("a", ["Y"])] ∧
    (identify_options ["a", "b"] none
        (fun _ _ => Except.ok [⟨1, "t1", ["X"]⟩, ⟨0, "t0", ["Y"]⟩])).map Prod.fst =
      ["b", "a"] ∧
    (["b", "a"] : List String) ≠ ["a", "b"] := by
  refine ⟨rfl, rfl, by decide⟩

/-- C7 counterexample: a record whose `normalized_entities` is empty passes
through unchecked, producing a mapping entry with an empty label list. -/
theorem C7_counterexample :
    identify_options ["a"] none (fun _ _ => Except.ok [⟨0, "t", []⟩]) = [("a", [])] ∧
    ¬(∀ p ∈ identify_options ["a"] none (fun _ _ => Except.ok [⟨0, "t", []⟩]),
        1 ≤ p.2.length) := by
  refine ⟨rfl, fun hall => ?_⟩
  have h0 := hall ("a", []) (List.mem_singleton_self ("a", ([] : List String)))
  simp at h0

theorem buildMappings_entities (responses : List String) (recs : List ExtractRecord)
    (result : List (String × List String))
    (h : buildMappings responses recs = some result) :
    ∀ p ∈ result, ∃ r ∈ recs, p.2 = r.normalized_entities := by
  induction recs generalizing result with
  | nil =>
    simp [buildMappings] at h
    subst h
    simp
  | cons m rest ih =>
    unfold buildMappings at h
    rcases hg : pyGet responses m.response_index with _ | text
    · rw [hg] at h; exact absurd h (by simp)
    · rw [hg] at h
      rcases hb : buildMappings responses rest with _ | tail
      · rw [hb] at h; exact absurd h (by simp)
      · rw [hb] at h
        have hres : result = (text, m.normalized_entities) :: tail := by
          have := Option.some.inj h
          exact this.symm
        subst hres
        intro p hp
        rcases List.mem_cons.1 hp with rfl | htl
        · exact ⟨m, List.mem_cons_self m rest, rfl⟩
        · obtain ⟨r, hr, hre⟩ := ih tail hb p htl
          exact ⟨r, List.mem_cons_of_mem m hr, hre⟩

theorem identify_options_ok_eq (responses : List String) (question : Option String)
    (extract : List String → Option String → Except String (List ExtractRecord))
    (recs : List ExtractRecord) (hx : extract responses question = Except.ok recs) :
    identify_options responses question extract =
      match buildMappings responses recs with
      | some result => result
      | none =>
          responses.map fun response => (response, ["Error: list index out of range"]) := by
  unfold identify_options
  rw [hx]

/-- C7 (amended): every entry of an `identify_options` result has a non-empty
label list provided that, on the success path, each record the extraction
model emitted carries a non-empty `normalized_entities`; both fallback paths
always yield the one-element error marker. -/
theorem C7_amended_nonempty_labels (responses : List String) (question : Option String)
    (extract : List String → Option String → Except String (List ExtractRecord))
    (h : ∀ recs, extract responses question = Except.ok recs →
      ∀ r ∈ recs, r.normalized_entities ≠ []) :
    ∀ p ∈ identify_options responses question extract, 1 ≤ p.2.length := by
  intro p hp
  rcases hx : extract responses question with e | recs
  · have hio : identify_options responses question extract =
        responses.map fun response => (response, ["Error: " ++ e]) := by
      unfold identify_options
      rw [hx]
    rw [hio] at hp
    obtain ⟨r, _, hpr⟩ := List.mem_map.1 hp
    rw [← hpr]
    simp
  · rw [identify_options_ok_eq responses question extract recs hx] at hp
    rcases hb : buildMappings responses recs with _ | result
    · rw [hb] at hp
      have hp2 : p ∈ responses.map
          (fun response => (response, ["Error: list index out of range"])) := hp
      obtain ⟨r, _, hpr⟩ := List.mem_map.1 hp2
      rw [← hpr]
      simp
    · rw [hb] at hp
      have hp2 : p ∈ result := hp
      obtain ⟨r, hr, hre⟩ := buildMappings_entities responses recs result hb p hp2
      have hne := h recs hx r hr
      rw [hre]
      rcases hd : r.normalized_entities with _ | ⟨x, xs⟩
      · exact absurd hd hne
      · simp

/-- Witness for C7 (amended) on a well-behaved extraction result: the single
entry of the returned mapping has a non-empty label list. -/
theorem C7_amended_nonempty_labels_witness :
    1 ≤ (("a", ["X"]) : String × List String).2.length :=
  C7_amended_nonempty_labels ["a"] none (fun _ _ => Except.ok [⟨0, "t", ["X"]⟩])
    (fun recs hrecs => by
      have hr : recs = [⟨0, "t", ["X"]⟩] := (Except.ok.inj hrecs).symm
      subst hr
      intro r hr
      simp at hr
      subst hr
      simp)
    ("a", ["X"]) (List.mem_singleton_self ("a", ["X"]))

/-! ## Sampler: src/llm_utils.py, `run_query` -/

/-- src/llm_utils.py, `run_query`.  `make_completion i` is the outcome of the
i-th loop iteration's `_make_completion_call` after its backoff retries:
either the completion content or, once retries are exhausted, the message of
the exception the `except` branch formats as `f"Error: {str(e)}"`. -/
def run_query (make_completion : Nat → Except String String) (runs : Nat) : List String :=
  (List.range runs).map fun i =>
    match make_completion i with
    | Except.ok content => content
    | Except.error e => "Error: " ++ e

theorem string_append_assoc (a b c : String) : a ++ b ++ c = a ++ (b ++ c) := by
  apply String.ext
  simp [List.append_assoc]

/-- C6: `run_query` always returns exactly `runs` slots; successful calls
keep their content and a call that exhausted its retries occupies its slot
with a string beginning with "Error:", never raising past `run_query`. -/
theorem C6_run_query_slots (make_completion : Nat → Except String String)
    (runs : Nat) (h : 1 ≤ runs) :
    (run_query make_completion runs).length = runs ∧
    ∀ i, i < runs →
      (∀ s, make_completion i = Except.ok s →
        (run_query make_completion runs).get? i = some s) ∧
      (∀ e, make_completion i = Except.error e →
        ∃ t, (run_query make_completion runs).get? i = some ("Error:" ++ t)) := by
  constructor
  · unfold run_query
    rw [List.length_map, List.length_range]
  · intro i hi
    have hget : (run_query make_completion runs).get? i =
        some (match make_completion i with
          | Except.ok content => content
          | Except.error e => "Error: " ++ e) := by
      unfold run_query
      rw [List.get?_map, List.get?_range hi]
      rfl
    constructor
    · intro s hs
      rw [hget, hs]
    · intro e he
      refine ⟨" " ++ e, ?_⟩
      rw [hget, he]
      have happ : "Error: " ++ e = "Error:" ++ (" " ++ e) := by
        rw [← string_append_assoc]
        rfl
      exact congrArg some happ

/-- Concrete sampler outcomes for the C6 witness: the first call succeeds,
the second exhausts its retries. -/
def sampleOutcomes : Nat → Except String String :=
  fun i => if i = 0 then Except.ok "hi" else Except.error "boom"

/-- Witness for C6 on a two-run batch with one failing call. -/
theorem C6_run_query_slots_witness :
    1 ≤ 2 ∧ (run_query sampleOutcomes 2).length = 2 :=
  ⟨by decide, (C6_run_query_slots sampleOutcomes 2 (by decide)).1⟩

/-! ## Filename sanitization: src/main.py, `get_model_filename` -/

/-- Python's `str.replace(old, new)` for one-character `old` and `new`:
substitute every occurrence, character by character. -/
def replaceChar (old new : Char) (s : List Char) : List Char :=
  s.map fun c => if c = old then new else c

/-- src/main.py, `get_model_filename`: strings as character lists; the two
chained `replace` calls followed by the f-string
`f"{base_name}_{model_name}.json"`. -/
def get_model_filename (base_name model : List Char) : List Char :=
  let model_name := replaceChar '.' '-' (replaceChar '/' '-' model)
  base_name ++ '_' :: (model_name ++ ".json".toList)

/-- C3 counterexample: "a/b" and "a.b" differ only in '/' versus '.', yet
both sanitize to the same filename — the sanitization is not injective on
such pairs. -/
theorem C3_counterexample :
    get_model_filename "responses".toList "a/b".toList =
      get_model_filename "responses".toList "a.b".toList ∧
    "a/b".toList ≠ "a.b".toList := by
  refine ⟨rfl, by decide⟩

/-- C3 (amended): the sanitized filename contains no path separator as long
as the caller-chosen base name contains none (the model-derived part never
can), but distinct model ids differing only in '/' and '.' may collide. -/
theorem C3_amended_no_separator (base_name model : List Char)
    (hb : '/' ∉ base_name) : '/' ∉ get_model_filename base_name model := by
  unfold get_model_filename
  intro hmem
  rcases List.mem_append.1 hmem with hmem | hmem
  · exact hb hmem
  · rcases List.mem_cons.1 hmem with hmem | hmem
    · exact absurd hmem (by decide)
    · rcases List.mem_append.1 hmem with hmem | hmem
      · unfold replaceChar at hmem
        obtain ⟨c, hc, hceq⟩ := List.mem_map.1 hmem
        by_cases hc1 : c = '.'
        · rw [if_pos hc1] at hceq
          exact absurd hceq (by decide)
        · rw [if_neg hc1] at hceq
          subst hceq
          obtain ⟨c0, hc0, hc0eq⟩ := List.mem_map.1 hc
          by_cases h0 : c0 = '/'
          · rw [if_pos h0] at hc0eq
            exact absurd hc0eq (by decide)
          · rw [if_neg h0] at hc0eq
            exact h0 hc0eq
      · exact absurd hmem (by decide)

/-- Witness for C3 (amended) on a base name without separators and a model id
containing both sanitized characters. -/
theorem C3_amended_no_separator_witness :
    '/' ∉ "responses".toList ∧ '/' ∉ get_model_filename "responses".toList "a/b.c".toList :=
  ⟨by decide, C3_amended_no_separator "responses".toList "a/b.c".toList (by decide)⟩

/-! ## Run orchestrator: src/main.py -/

/-- One JSON document in the session's data directory. -/
inductive Artifact
  | responsesArt (model query : String) (responses : List String)
  | optionsArt (model query : String) (options : List String)
      (mappings : List (String × List String))
deriving DecidableEq

/-- The on-disk data directory: (unique_id, filename) to JSON document;
`none` is a missing file (`FileNotFoundError` on read). -/
def Store : Type := String × List Char → Option Artifact

/-- Writing a file: `json.dump(..., open(data_dir / file, "w"))`. -/
def Store.update (s : Store) (k : String × List Char) (v : Artifact) : Store :=
  fun k2 => if k2 = k then some v else s k2

/-- `sorted(...)` on option labels (Python string order; which total order is
used is irrelevant to every claim below). -/
def insertSorted (s : String) : List String → List String
  | [] => [s]
  | x :: rest => if s ≤ x then s :: x :: rest else x :: insertSorted s rest

def sortStrings (l : List String) : List String := l.foldr insertSorted []

/-- src/main.py, `get_responses`: loop `runs` times over `run_query(model,
query, system_prompt)` (its default `runs=1`, so each call contributes one
slot via the `extend` branch), then persist {model, query, responses}.
`make_completion i` is iteration i's completion outcome, as in `run_query`. -/
def get_responses (store : Store) (unique_id model query : String)
    (make_completion : Nat → Except String String) (runs : Nat) :
    List String × Store :=
  let results := (List.range runs).foldl
    (fun acc i => acc ++ run_query (fun _ => make_completion i) 1) []
  let responses_file := get_model_filename "responses".toList model.toList
  let store2 := Store.update store (unique_id, responses_file)
    (Artifact.responsesArt model query results)
  (results, store2)

/-- src/main.py, `process_options`: if `responses` or `query` is omitted,
rehydrate BOTH from the persisted responses artifact (a missing file is the
propagated `FileNotFoundError`, a wrong-shaped document a `KeyError`); run
the extractor; persist {model, query, options (sorted distinct), mappings};
return the mappings. -/
def process_options (store : Store) (unique_id model : String)
    (responses : Option (List String)) (query : Option String)
    (extract : List String → Option String → Except String (List ExtractRecord)) :
    Except String (List (String × List String) × Store) :=
  let responses_file := get_model_filename "responses".toList model.toList
  let loaded : Except String (List String × String) :=
    if responses.isNone || query.isNone then
      match store (unique_id, responses_file) with
      | some (Artifact.responsesArt _ q rs) => Except.ok (rs, q)
      | some _ => Except.error "KeyError"
      | none => Except.error "FileNotFoundError"
    else
      Except.ok (responses.getD [], query.getD "")
  match loaded with
  | Except.error e => Except.error e
  | Except.ok (rs, q) =>
    let mappings := identify_options rs (some q) extract
    let all_options := sortStrings ((mappings.map Prod.snd).join.dedup)
    let store2 := Store.update store
      (unique_id, get_model_filename "options".toList model.toList)
      (Artifact.optionsArt model q all_options mappings)
    Except.ok (mappings, store2)

/-- C8: after `get_responses` persisted the responses artifact, calling
`process_options` with `responses` and `query` omitted gives exactly the
result of calling it with the persisted responses and query passed
explicitly (the extraction capability being a fixed function of its inputs). -/
theorem C8_idempotent_reload (store : Store) (unique_id model query : String)
    (make_completion : Nat → Except String String) (runs : Nat)
    (extract : List String → Option String → Except String (List ExtractRecord)) :
    process_options (get_responses store unique_id model query make_completion runs).2
        unique_id model none none extract =
      process_options (get_responses store unique_id model query make_completion runs).2
        unique_id model
        (some (get_responses store unique_id model query make_completion runs).1)
        (some query) extract := by
  unfold get_responses process_options
  simp [Store.update]

/-- C10: if either argument of `process_options` is omitted, BOTH are
rehydrated from the persisted artifact: supplying only in-memory responses
(or only a query) yields exactly the omitted-both result, and the mapping is
computed from the stored responses and stored query, discarding the supplied
value. -/
theorem C10_rehydrate_discards (store : Store) (unique_id model : String)
    (rs : List String) (q2 m saved_q : String) (saved_rs : List String)
    (extract : List String → Option String → Except String (List ExtractRecord))
    (h : store (unique_id, get_model_filename "responses".toList model.toList) =
      some (Artifact.responsesArt m saved_q saved_rs)) :
    process_options store unique_id model (some rs) none extract =
      process_options store unique_id model none none extract ∧
    process_options store unique_id model none (some q2) extract =
      process_options store unique_id model none none extract ∧
    (process_options store unique_id model (some rs) none extract).map Prod.fst =
      Except.ok (identify_options saved_rs (some saved_q) extract) := by
  simp only [process_options, h]
  simp [Except.map]

/-- Concrete one-file store for the C10 witness. -/
def witnessStore : Store :=
  Store.update (fun _ => none)
    ("sess01", get_model_filename "responses".toList "gpt-4".toList)
    (Artifact.responsesArt "gpt-4" "saved question" ["saved r1", "saved r2"])

/-- Extraction capability for the C10 witness: always fails, so the mapping
is the uniform error fallback over whichever responses were used. -/
def witnessExtract : List String → Option String → Except String (List ExtractRecord) :=
  fun _ _ => Except.error "x"

/-- Witness for C10: in-memory values are discarded in favour of the stored
artifact. -/
theorem C10_rehydrate_discards_witness :
    process_options witnessStore "sess01" "gpt-4" (some ["mem r"]) none witnessExtract =
      process_options witnessStore "sess01" "gpt-4" none none witnessExtract ∧
    process_options witnessStore "sess01" "gpt-4" none (some "mem q") witnessExtract =
      process_options witnessStore "sess01" "gpt-4" none none witnessExtract ∧
    (process_options witnessStore "sess01" "gpt-4" (some ["mem r"]) none
        witnessExtract).map Prod.fst =
      Except.ok (identify_options ["saved r1", "saved r2"] (some "saved question")
        witnessExtract) :=
  C10_rehydrate_discards witnessStore "sess01" "gpt-4" ["mem r"] "mem q" "gpt-4"
    "saved question" ["saved r1", "saved r2"] witnessExtract rfl
